import Mathlib

/-!
Verification of the listmoz enrollment bot (`src/bot.js`).

The development shallowly embeds the decision-making core of the bot:

* the message handler registered with `client.on('message', ...)`:
  group filter (`msg.from.includes('@g.us')`), chat-name check
  (`chat.name !== TARGET_CHAT`), link extraction (`indexOf`, `substring`,
  `trim`, `split('#')`), the dedup check over `items`, and the final
  `axios.post`;
* the bounded-retry polling loop `waitForValidFetch`.

Strings are modelled as `List Char`; the JavaScript string operations used
by the source (`includes`, `indexOf`, `substring`, `trim`, `split`) are
defined below with JavaScript semantics.  Network effects are modelled by
oracles: the lookup GET is a function `Nat → FetchResult` giving the result
of each successive attempt, and the final POST result is an
`Except Unit Unit`.  Each run produces a trace recording the number of
lookup calls, the delays awaited, the list of submission payloads sent, and
the outcome.
-/

/-- JavaScript whitespace as recognised by `String.prototype.trim`:
WhiteSpace ∪ LineTerminator (tab, LF, VT, FF, CR, space, NBSP, BOM,
the Unicode space separators, and the line/paragraph separators). -/
def jsIsWhite (c : Char) : Bool :=
  c == ' ' || c == '\t' || c == '\n' || c == '\x0b' || c == '\x0c' || c == '\r'
  || c.toNat == 0xa0 || c.toNat == 0x1680
  || (0x2000 ≤ c.toNat && c.toNat ≤ 0x200a)
  || c.toNat == 0x2028 || c.toNat == 0x2029 || c.toNat == 0x202f
  || c.toNat == 0x205f || c.toNat == 0x3000 || c.toNat == 0xfeff

/-- JavaScript `s.trim()`: remove whitespace from both ends. -/
def jsTrim (l : List Char) : List Char :=
  ((l.dropWhile jsIsWhite).reverse.dropWhile jsIsWhite).reverse

/-- `leadsWith pat s` is true when `pat` occurs at the start of `s`. -/
def leadsWith : List Char → List Char → Bool
  | [], _ => true
  | _ :: _, [] => false
  | p :: ps, c :: cs => p == c && leadsWith ps cs

/-- Auxiliary scan for `subIndexOf`, carrying the current index. -/
def subIndexOfAux (pat : List Char) : List Char → Nat → Option Nat
  | [], i => if leadsWith pat [] then some i else none
  | s@(_ :: t), i => if leadsWith pat s then some i else subIndexOfAux pat t (i + 1)

/-- JavaScript `s.indexOf(pat)`: index of the first occurrence of the
substring `pat` in `s`, `none` standing for `-1`.  `s.includes(pat)` is
`(subIndexOf s pat).isSome`. -/
def subIndexOf (s pat : List Char) : Option Nat :=
  subIndexOfAux pat s 0

/-- Index of the first space character in `l` (`none` if there is none). -/
def firstSpaceIdx : List Char → Option Nat
  | [] => none
  | c :: t => if c == ' ' then some 0 else (firstSpaceIdx t).map (· + 1)

/-- JavaScript `s.indexOf(' ', start)`: index of the first space character
at position `start` or later, `none` standing for `-1`. -/
def idxOfSpaceFrom (s : List Char) (start : Nat) : Option Nat :=
  (firstSpaceIdx (s.drop start)).map (fun k => start + k)

/-- JavaScript `s.split(c)` for a single-character separator `c`. -/
def splitChar (c : Char) : List Char → List (List Char)
  | [] => [[]]
  | x :: t =>
    let r := splitChar c t
    if x == c then [] :: r
    else
      match r with
      | [] => [[x]]
      | h :: rest => (x :: h) :: rest

/-- The configured URL marker: `const prefix = 'https://listmoz.com/#'`. -/
def listmozStart : List Char := "https://listmoz.com/#".toList

/-- The result of a successful extraction: the full URL (`fullUrl`) and the
identifier after the fragment delimiter (`modUrl`). -/
structure Extracted where
  fullUrl : List Char
  modUrl : List Char
deriving DecidableEq

/-- The candidate link: `msg.body.substring(startIdx, endIdx === -1 ?
msg.body.length : endIdx).trim()` where `endIdx = msg.body.indexOf(' ',
startIdx)`. -/
def candidateAt (body : List Char) (startIdx : Nat) : List Char :=
  let stop :=
    match idxOfSpaceFrom body startIdx with
    | none => body.length
    | some e => e
  jsTrim ((body.drop startIdx).take (stop - startIdx))

/-- The fragment segment: `fullUrl.split('#')[1]`, `none` standing for
JavaScript `undefined`. -/
def fragmentSeg (cand : List Char) : Option (List Char) :=
  (splitChar '#' cand).get? 1

/-- The extraction part of the message handler (src/bot.js lines 33-40):
the `includes(prefix)` guard, the candidate-link computation and the
`if (!modUrl) return` guard.  `none` models the handler returning without
doing anything. -/
def extractLink (body : List Char) : Option Extracted :=
  match subIndexOf body listmozStart with
  | none => none
  | some startIdx =>
    let fullUrl := candidateAt body startIdx
    match fragmentSeg fullUrl with
    | none => none
    | some m => if m == [] then none else some ⟨fullUrl, m⟩

/-- An entry of the `items` array of a lookup response. -/
structure FetchItem where
  description : String
deriving DecidableEq

/-- A parsed lookup response body (`res.data`): an optional `read_url`
string and an optional `items` array, `none` standing for an absent
field. -/
structure FetchData where
  read_url : Option String
  items : Option (List FetchItem)
deriving DecidableEq

/-- The result of one lookup GET: a response, or a thrown error (network
or HTTP failure). -/
inductive FetchResult where
  | ok (d : FetchData)
  | err
deriving DecidableEq

/-- JavaScript truthiness of `res.data.read_url`: present and a non-empty
string. -/
def readUrlTruthy (d : FetchData) : Bool :=
  match d.read_url with
  | none => false
  | some s => !(s == "")

/-- An attempt that does not leave the loop: a thrown error, or a response
whose `read_url` is absent or empty.  Both kinds count toward the same
retry bound. -/
def attemptFails (r : FetchResult) : Bool :=
  match r with
  | .ok d => !(readUrlTruthy d)
  | .err => true

/-- The fixed retry delay in milliseconds: `await delay(30000)`. -/
def delayMs : Nat := 30000

/-- Trace of one run of the polling loop: number of GET calls issued, the
delays awaited (in ms, one per non-returning iteration), and the result
(`some d` when the loop returned `res.data`, `none` when it fell through
and threw the exhaustion error). -/
structure PollTrace where
  calls : Nat
  waits : List Nat
  result : Option FetchData
deriving DecidableEq

/-- The body of the `for (let i = 0; i < maxRetries; i++)` loop of
`waitForValidFetch`, with `i` the current attempt index and the `Nat`
argument the number of remaining iterations.  Each iteration issues one
GET (`oracle i`); a response with a truthy `read_url` is returned at once;
any other outcome (empty `read_url` or thrown error) logs and awaits the
fixed delay before the next iteration.  Falling out of the loop yields
`result = none` (the `throw new Error(...)`). -/
def pollFrom (oracle : Nat → FetchResult) (i : Nat) : Nat → PollTrace
  | 0 => { calls := 0, waits := [], result := none }
  | fuel + 1 =>
    match oracle i with
    | .ok d =>
      if readUrlTruthy d then { calls := 1, waits := [], result := some d }
      else
        let t := pollFrom oracle (i + 1) fuel
        { calls := t.calls + 1, waits := delayMs :: t.waits, result := t.result }
    | .err =>
      let t := pollFrom oracle (i + 1) fuel
      { calls := t.calls + 1, waits := delayMs :: t.waits, result := t.result }

/-- `waitForValidFetch(modUrl, maxRetries)` (src/bot.js lines 74-89),
starting at attempt index 0. -/
def waitForValidFetch (oracle : Nat → FetchResult) (maxRetries : Nat) : PollTrace :=
  pollFrom oracle 0 maxRetries

/-- The JSON body of the submission POST. -/
structure Payload where
  description : String
  force_creation_of_new_list : Bool
  mod_url : List Char
  read_url : Option String
deriving DecidableEq

/-- Outcome of the `try` block of the message handler: the exhaustion
throw of `waitForValidFetch`, the dedup skip, a thrown POST error, or a
successful enrollment.  `exhausted` and `postError` are the outcomes the
handler's `catch` converts to an error log. -/
inductive EnrollOutcome where
  | exhausted (maxRetries : Nat)
  | duplicateSkip
  | postError
  | enrolled (p : Payload)
deriving DecidableEq

/-- `await axios.post(...)`: the given result decides between a thrown
error and a successful enrollment. -/
def postOutcome (postResult : Except Unit Unit) (p : Payload) : EnrollOutcome :=
  match postResult with
  | .error _ => .postError
  | .ok _ => .enrolled p

/-- The dedup-then-submit step run on a ready response `d`
(src/bot.js lines 47-64): destructure `{ read_url, items = [] }`, skip when
some item's `description` equals the configured `ITEM`, otherwise build the
payload and POST it once.  Returns the submission payloads sent and the
outcome. -/
def afterReady (modUrl : List Char) (item : String) (d : FetchData)
    (postResult : Except Unit Unit) : List Payload × EnrollOutcome :=
  let items := d.items.getD []
  if items.any (fun e => e.description == item) then
    ([], .duplicateSkip)
  else
    let payload : Payload :=
      { description := item, force_creation_of_new_list := false,
        mod_url := modUrl, read_url := d.read_url }
    ([payload], postOutcome postResult payload)

/-- Trace of one run of the enrollment orchestration (the handler's `try`
block). -/
structure EnrollTrace where
  lookupCalls : Nat
  waits : List Nat
  posts : List Payload
  outcome : EnrollOutcome
deriving DecidableEq

/-- The enrollment orchestration for one extracted identifier: poll with
`waitForValidFetch`, then — unless the poll threw — run the dedup/submit
step on the returned response. -/
def enroll (modUrl : List Char) (item : String) (oracle : Nat → FetchResult)
    (maxRetries : Nat) (postResult : Except Unit Unit) : EnrollTrace :=
  let t := waitForValidFetch oracle maxRetries
  match t.result with
  | none =>
    { lookupCalls := t.calls, waits := t.waits, posts := [],
      outcome := .exhausted maxRetries }
  | some d =>
    let a := afterReady modUrl item d postResult
    { lookupCalls := t.calls, waits := t.waits, posts := a.1, outcome := a.2 }

/-- Final outcome of the message handler.  `chatErrorUncaught` models a
rejection of `await msg.getChat()`: that await sits outside the handler's
`try`/`catch`, so the rejection escapes the handler (an unhandled promise
rejection); every other outcome has the handler return normally, with
`ran (exhausted _)` and `ran postError` the cases logged by the `catch`. -/
inductive Outcome where
  | notGroup
  | chatErrorUncaught
  | wrongChat
  | noMatch
  | ran (e : EnrollOutcome)
deriving DecidableEq

/-- Whether an error escaped the handler instead of being caught and
logged. -/
def Outcome.escapesHandler : Outcome → Bool
  | .chatErrorUncaught => true
  | _ => false

/-- Trace of one run of the message handler. -/
structure RunTrace where
  lookupCalls : Nat
  waits : List Nat
  posts : List Payload
  outcome : Outcome
deriving DecidableEq

/-- The group-chat convention marker: `msg.from.includes('@g.us')`. -/
def groupMarker : List Char := "@g.us".toList

/-- The group filter on the origin identifier. -/
def isGroupFrom (msgFrom : List Char) : Bool :=
  (subIndexOf msgFrom groupMarker).isSome

/-- The `client.on('message')` handler (src/bot.js lines 26-70).
`getChatResult` models `await msg.getChat()` resolving to the chat name or
rejecting; `oracle` gives each lookup attempt's result; `postResult` the
submission POST's result.  The guards return early with an empty trace;
the `try` block is `enroll`; its thrown outcomes are caught, while a
`getChat` rejection escapes. -/
def handleMessage (msgFrom body : List Char) (getChatResult : Except Unit String)
    (targetChat item : String) (oracle : Nat → FetchResult) (maxRetries : Nat)
    (postResult : Except Unit Unit) : RunTrace :=
  if !(isGroupFrom msgFrom) then
    { lookupCalls := 0, waits := [], posts := [], outcome := .notGroup }
  else
    match getChatResult with
    | .error _ =>
      { lookupCalls := 0, waits := [], posts := [], outcome := .chatErrorUncaught }
    | .ok name =>
      if name ≠ targetChat then
        { lookupCalls := 0, waits := [], posts := [], outcome := .wrongChat }
      else
        match extractLink body with
        | none =>
          { lookupCalls := 0, waits := [], posts := [], outcome := .noMatch }
        | some ex =>
          let t := enroll ex.modUrl item oracle maxRetries postResult
          { lookupCalls := t.lookupCalls, waits := t.waits, posts := t.posts,
            outcome := .ran t.outcome }

/-- Modelled from the spec's algorithm for the extractor (§4.1), with the
candidate span read as "up to the next space character or end-of-string":
locate the first occurrence of the prefix, take characters until a space
character or the end, trim, and split on the fragment delimiter.  Used to
show the source extraction refines this description. -/
def extractSpec (body : List Char) : Option Extracted :=
  match subIndexOf body listmozStart with
  | none => none
  | some startIdx =>
    let fullUrl := jsTrim ((body.drop startIdx).takeWhile (fun c => !(c == ' ')))
    match fragmentSeg fullUrl with
    | none => none
    | some m => if m == [] then none else some ⟨fullUrl, m⟩

/-! ### Helper lemmas -/

theorem pollFrom_exhaust (oracle : Nat → FetchResult) :
    ∀ (fuel i : Nat), (∀ j, j < fuel → attemptFails (oracle (i + j)) = true) →
      pollFrom oracle i fuel =
        { calls := fuel, waits := List.replicate fuel delayMs, result := none }
  | 0, _, _ => rfl
  | fuel + 1, i, h => by
    have h0 : attemptFails (oracle i) = true := by
      have := h 0 (Nat.succ_pos _)
      simpa using this
    have ih := pollFrom_exhaust oracle fuel (i + 1) (fun j hj => by
      have := h (j + 1) (by omega)
      rw [show i + 1 + j = i + (j + 1) from by omega]
      exact this)
    cases ho : oracle i with
    | ok d =>
      have hd : readUrlTruthy d = false := by
        rw [ho] at h0
        simpa [attemptFails] using h0
      simp [pollFrom, ho, hd, ih, List.replicate_succ]
    | err => simp [pollFrom, ho, ih, List.replicate_succ]

theorem pollFrom_ready (oracle : Nat → FetchResult) (d : FetchData) :
    ∀ (n i fuel : Nat), n < fuel →
      (∀ j, j < n → attemptFails (oracle (i + j)) = true) →
      oracle (i + n) = FetchResult.ok d → readUrlTruthy d = true →
      pollFrom oracle i fuel =
        { calls := n + 1, waits := List.replicate n delayMs, result := some d }
  | 0, i, fuel + 1, _, _, ho, hd => by
    simp only [Nat.add_zero] at ho
    simp [pollFrom, ho, hd]
  | n + 1, i, fuel + 1, hlt, hfail, ho, hd => by
    have h0 : attemptFails (oracle i) = true := by
      have := hfail 0 (Nat.succ_pos _)
      simpa using this
    have ih := pollFrom_ready oracle d n (i + 1) fuel (by omega)
      (fun j hj => by
        have := hfail (j + 1) (by omega)
        rw [show i + 1 + j = i + (j + 1) from by omega]
        exact this)
      (by rw [show i + 1 + n = i + (n + 1) from by omega]; exact ho) hd
    cases hor : oracle i with
    | ok e =>
      have he : readUrlTruthy e = false := by
        rw [hor] at h0
        simpa [attemptFails] using h0
      simp [pollFrom, hor, he, ih, List.replicate_succ]
    | err => simp [pollFrom, hor, ih, List.replicate_succ]
  | _, _, 0, hlt, _, _, _ => absurd hlt (Nat.not_lt_zero _)

theorem dropWhile_eq_self_of_false {α : Type} {p : α → Bool} {l : List α}
    (h : ∀ c ∈ l, p c = false) : l.dropWhile p = l := by
  cases l with
  | nil => rfl
  | cons a t => simp [List.dropWhile, h a (List.mem_cons_self _ _)]

theorem jsTrim_eq_self {l : List Char} (h : ∀ c ∈ l, jsIsWhite c = false) :
    jsTrim l = l := by
  unfold jsTrim
  rw [dropWhile_eq_self_of_false h,
    dropWhile_eq_self_of_false (fun c hc => h c (List.mem_reverse.mp hc)),
    List.reverse_reverse]

theorem firstSpaceIdx_cons_space (c : Char) (t : List Char) (hc : (c == ' ') = true) :
    firstSpaceIdx (c :: t) = some 0 := by
  simp [firstSpaceIdx, hc]

theorem firstSpaceIdx_cons_of_ne (c : Char) (t : List Char) (hc : (c == ' ') = false) :
    firstSpaceIdx (c :: t) = (firstSpaceIdx t).map (· + 1) := by
  simp [firstSpaceIdx, hc]

theorem firstSpaceIdx_append (l₁ l₂ : List Char) (h : ∀ c ∈ l₁, (c == ' ') = false) :
    firstSpaceIdx (l₁ ++ l₂) = (firstSpaceIdx l₂).map (· + l₁.length) := by
  induction l₁ with
  | nil =>
    rw [List.nil_append]
    cases firstSpaceIdx l₂ <;> rfl
  | cons c t ih =>
    have hc : (c == ' ') = false := h c (List.mem_cons_self _ _)
    have ht := ih (fun x hx => h x (List.mem_cons_of_mem _ hx))
    rw [List.cons_append, firstSpaceIdx_cons_of_ne _ _ hc, ht]
    cases firstSpaceIdx l₂ with
    | none => rfl
    | some k =>
      show some (k + t.length + 1) = some (k + (t.length + 1))
      rw [Nat.add_assoc]

theorem takeWhile_of_firstSpace_none (l : List Char) (h : firstSpaceIdx l = none) :
    l.takeWhile (fun c => !(c == ' ')) = l := by
  induction l with
  | nil => rfl
  | cons c t ih =>
    by_cases hc : (c == ' ') = true
    · rw [firstSpaceIdx_cons_space _ _ hc] at h
      exact absurd h (by simp)
    · have hc2 : (c == ' ') = false := by simpa using hc
      rw [firstSpaceIdx_cons_of_ne _ _ hc2] at h
      have h2 : firstSpaceIdx t = none := by
        cases hfs : firstSpaceIdx t with
        | none => rfl
        | some k => rw [hfs] at h; simp at h
      simp [List.takeWhile_cons, hc2, ih h2]

theorem take_of_firstSpace_some (l : List Char) (k : Nat) (h : firstSpaceIdx l = some k) :
    l.take k = l.takeWhile (fun c => !(c == ' ')) := by
  induction l generalizing k with
  | nil => exact absurd h (by simp [firstSpaceIdx])
  | cons c t ih =>
    by_cases hc : (c == ' ') = true
    · rw [firstSpaceIdx_cons_space _ _ hc] at h
      simp only [Option.some.injEq] at h
      subst h
      simp [List.takeWhile_cons, hc]
    · have hc2 : (c == ' ') = false := by simpa using hc
      rw [firstSpaceIdx_cons_of_ne _ _ hc2] at h
      cases hfs : firstSpaceIdx t with
      | none => rw [hfs] at h; simp at h
      | some a =>
        rw [hfs] at h
        simp only [Option.map_some', Option.some.injEq] at h
        subst h
        simp [List.takeWhile_cons, hc2, List.take_succ_cons, ih a hfs]

theorem candidateAt_eq_takeWhile (body : List Char) (i : Nat) :
    candidateAt body i = jsTrim ((body.drop i).takeWhile (fun c => !(c == ' '))) := by
  unfold candidateAt idxOfSpaceFrom
  cases hfs : firstSpaceIdx (body.drop i) with
  | none =>
    simp only [Option.map_none']
    rw [takeWhile_of_firstSpace_none _ hfs]
    congr 1
    have hlen : (body.drop i).length = body.length - i := List.length_drop _ _
    rw [← hlen]
    exact List.take_length _
  | some k =>
    simp only [Option.map_some']
    rw [show i + k - i = k from by omega, take_of_firstSpace_some _ k hfs]

theorem splitChar_of_not_mem (c : Char) (l : List Char) (h : ∀ x ∈ l, (x == c) = false) :
    splitChar c l = [l] := by
  induction l with
  | nil => rfl
  | cons a t ih =>
    have ha := h a (List.mem_cons_self _ _)
    have ht := ih (fun x hx => h x (List.mem_cons_of_mem _ hx))
    simp [splitChar, ha, ht]

theorem splitChar_append_sep (c : Char) (l₁ l₂ : List Char)
    (h : ∀ x ∈ l₁, (x == c) = false) :
    splitChar c (l₁ ++ c :: l₂) = l₁ :: splitChar c l₂ := by
  induction l₁ with
  | nil => simp [splitChar]
  | cons a t ih =>
    have ha := h a (List.mem_cons_self _ _)
    have ht := ih (fun x hx => h x (List.mem_cons_of_mem _ hx))
    simp [splitChar, ha, ht]

theorem takeWhile_append_all {α : Type} (p : α → Bool) (l₁ l₂ : List α)
    (h : ∀ c ∈ l₁, p c = true) :
    (l₁ ++ l₂).takeWhile p = l₁ ++ l₂.takeWhile p := by
  induction l₁ with
  | nil => rfl
  | cons a t ih =>
    simp [List.takeWhile_cons, h a (List.mem_cons_self _ _),
      ih (fun x hx => h x (List.mem_cons_of_mem _ hx))]

theorem listmozStart_no_space : ∀ c ∈ listmozStart, (c == ' ') = false := by decide

theorem listmozStart_no_white : ∀ c ∈ listmozStart, jsIsWhite c = false := by decide

/-! ### Claim theorems -/

/-- C1: if every one of the first `maxRetries` lookup attempts either
returns a response with an absent/empty `read_url` or throws — both
failure kinds counting toward the same bound — then the orchestration run
issues exactly `maxRetries` lookup calls, raises the exhaustion condition
(the loop's final `throw`), and sends zero submission POSTs. -/
theorem poll_exhaustion_bound (modUrl : List Char) (item : String)
    (oracle : Nat → FetchResult) (maxRetries : Nat) (postResult : Except Unit Unit)
    (h : ∀ j, j < maxRetries → attemptFails (oracle j) = true) :
    enroll modUrl item oracle maxRetries postResult =
      { lookupCalls := maxRetries, waits := List.replicate maxRetries delayMs,
        posts := [], outcome := .exhausted maxRetries } := by
  have hp := pollFrom_exhaust oracle maxRetries 0 (fun j hj => by simpa using h j hj)
  simp [enroll, waitForValidFetch, hp]

theorem poll_exhaustion_bound_witness :
    enroll [] "I" (fun _ => FetchResult.err) 3 (Except.ok ()) =
      { lookupCalls := 3, waits := List.replicate 3 delayMs,
        posts := [], outcome := .exhausted 3 } :=
  poll_exhaustion_bound [] "I" (fun _ => FetchResult.err) 3 (Except.ok ())
    (fun _ _ => rfl)

/-- C2: if the first `N` lookup attempts (with `N < maxRetries`) return
responses whose `read_url` is absent or empty and the `(N+1)`-th attempt
returns a response with a non-empty `read_url`, then the loop issues
exactly `N + 1` lookup calls with the fixed 30-second delay between
consecutive attempts, and the orchestration proceeds to the dedup check
using exactly that `(N+1)`-th response. -/
theorem poll_ready_after_n (modUrl : List Char) (item : String)
    (oracle : Nat → FetchResult) (maxRetries N : Nat) (d : FetchData)
    (postResult : Except Unit Unit) (hN : N < maxRetries)
    (hEmpty : ∀ j, j < N → ∃ e, oracle j = FetchResult.ok e ∧ readUrlTruthy e = false)
    (hd : oracle N = FetchResult.ok d) (hr : readUrlTruthy d = true) :
    waitForValidFetch oracle maxRetries =
      { calls := N + 1, waits := List.replicate N delayMs, result := some d } ∧
    enroll modUrl item oracle maxRetries postResult =
      { lookupCalls := N + 1, waits := List.replicate N delayMs,
        posts := (afterReady modUrl item d postResult).1,
        outcome := (afterReady modUrl item d postResult).2 } := by
  have hfail : ∀ j, j < N → attemptFails (oracle j) = true := fun j hj => by
    obtain ⟨e, he, hef⟩ := hEmpty j hj
    simp [attemptFails, he, hef]
  have hp := pollFrom_ready oracle d N 0 maxRetries hN
    (fun j hj => by simpa using hfail j hj) (by simpa using hd) hr
  refine ⟨by simpa [waitForValidFetch] using hp, ?_⟩
  simp [enroll, waitForValidFetch, hp]

theorem poll_ready_after_n_witness :
    waitForValidFetch
        (fun i => if i = 0 then FetchResult.ok ⟨none, none⟩
                  else FetchResult.ok ⟨some "r", some []⟩) 3 =
      { calls := 2, waits := List.replicate 1 delayMs,
        result := some ⟨some "r", some []⟩ } ∧
    enroll "abc".toList "I"
        (fun i => if i = 0 then FetchResult.ok ⟨none, none⟩
                  else FetchResult.ok ⟨some "r", some []⟩) 3 (Except.ok ()) =
      { lookupCalls := 2, waits := List.replicate 1 delayMs,
        posts := (afterReady "abc".toList "I" ⟨some "r", some []⟩ (Except.ok ())).1,
        outcome := (afterReady "abc".toList "I" ⟨some "r", some []⟩ (Except.ok ())).2 } :=
  poll_ready_after_n "abc".toList "I"
    (fun i => if i = 0 then FetchResult.ok ⟨none, none⟩
              else FetchResult.ok ⟨some "r", some []⟩) 3 1 ⟨some "r", some []⟩
    (Except.ok ()) (by decide)
    (fun j hj => by
      have hj0 : j = 0 := by omega
      subst hj0
      exact ⟨⟨none, none⟩, rfl, rfl⟩)
    rfl (by decide)

/-- C3: for every ready resource descriptor (non-empty `read_url`) whose
item list contains no entry with description exactly the configured item,
the orchestration makes exactly one submission POST whose body has
`description` equal to the configured item, `force_creation_of_new_list`
equal to `false`, `mod_url` equal to the extracted identifier, and
`read_url` equal to the descriptor's read URL. -/
theorem submit_when_absent (modUrl : List Char) (item : String) (d : FetchData)
    (oracle : Nat → FetchResult) (maxRetries : Nat) (postResult : Except Unit Unit)
    (h0 : oracle 0 = FetchResult.ok d) (hr : readUrlTruthy d = true)
    (hm : 0 < maxRetries)
    (habs : (d.items.getD []).any (fun e => e.description == item) = false) :
    (enroll modUrl item oracle maxRetries postResult).posts =
      [{ description := item, force_creation_of_new_list := false,
         mod_url := modUrl, read_url := d.read_url }] := by
  have hp := pollFrom_ready oracle d 0 0 maxRetries hm
    (fun j hj => absurd hj (Nat.not_lt_zero _)) (by simpa using h0) hr
  simp [enroll, waitForValidFetch, hp, afterReady, habs]

theorem submit_when_absent_witness :
    (enroll "abc".toList "I"
        (fun _ => FetchResult.ok ⟨some "u", some [⟨"other"⟩]⟩) 2 (Except.ok ())).posts =
      [{ description := "I", force_creation_of_new_list := false,
         mod_url := "abc".toList, read_url := some "u" }] :=
  submit_when_absent "abc".toList "I" ⟨some "u", some [⟨"other"⟩]⟩
    (fun _ => FetchResult.ok ⟨some "u", some [⟨"other"⟩]⟩) 2 (Except.ok ())
    rfl (by decide) (by decide) (by decide)

/-- C4: for every ready resource descriptor whose item list contains an
entry with description exactly string-equal to the configured item, the
orchestration makes zero submission POSTs and the run ends as the
non-error dedup no-op. -/
theorem skip_when_present (modUrl : List Char) (item : String) (d : FetchData)
    (oracle : Nat → FetchResult) (maxRetries : Nat) (postResult : Except Unit Unit)
    (h0 : oracle 0 = FetchResult.ok d) (hr : readUrlTruthy d = true)
    (hm : 0 < maxRetries)
    (hpres : (d.items.getD []).any (fun e => e.description == item) = true) :
    (enroll modUrl item oracle maxRetries postResult).posts = [] ∧
    (enroll modUrl item oracle maxRetries postResult).outcome =
      EnrollOutcome.duplicateSkip := by
  have hp := pollFrom_ready oracle d 0 0 maxRetries hm
    (fun j hj => absurd hj (Nat.not_lt_zero _)) (by simpa using h0) hr
  constructor <;> simp [enroll, waitForValidFetch, hp, afterReady, hpres]

theorem skip_when_present_witness :
    (enroll "abc".toList "I"
        (fun _ => FetchResult.ok ⟨some "u", some [⟨"I"⟩]⟩) 2 (Except.ok ())).posts = [] ∧
    (enroll "abc".toList "I"
        (fun _ => FetchResult.ok ⟨some "u", some [⟨"I"⟩]⟩) 2 (Except.ok ())).outcome =
      EnrollOutcome.duplicateSkip :=
  skip_when_present "abc".toList "I" ⟨some "u", some [⟨"I"⟩]⟩
    (fun _ => FetchResult.ok ⟨some "u", some [⟨"I"⟩]⟩) 2 (Except.ok ())
    rfl (by decide) (by decide) (by decide)

/-- C10: for every ready lookup response that has a non-empty `read_url`
but omits the `items` field entirely, the destructuring default
`items = []` makes the dedup check find nothing, so exactly one submission
POST is made (with the usual body) and the run is never treated as a
duplicate skip. -/
theorem missing_items_enrolls (modUrl : List Char) (item : String) (d : FetchData)
    (oracle : Nat → FetchResult) (maxRetries : Nat) (postResult : Except Unit Unit)
    (h0 : oracle 0 = FetchResult.ok d) (hr : readUrlTruthy d = true)
    (hm : 0 < maxRetries) (hitems : d.items = none) :
    (enroll modUrl item oracle maxRetries postResult).posts =
      [{ description := item, force_creation_of_new_list := false,
         mod_url := modUrl, read_url := d.read_url }] ∧
    (enroll modUrl item oracle maxRetries postResult).outcome ≠
      EnrollOutcome.duplicateSkip := by
  have hp := pollFrom_ready oracle d 0 0 maxRetries hm
    (fun j hj => absurd hj (Nat.not_lt_zero _)) (by simpa using h0) hr
  constructor
  · simp [enroll, waitForValidFetch, hp, afterReady, hitems]
  · cases postResult <;>
      simp [enroll, waitForValidFetch, hp, afterReady, hitems, postOutcome]

theorem missing_items_enrolls_witness :
    (enroll "abc".toList "I"
        (fun _ => FetchResult.ok ⟨some "u", none⟩) 2 (Except.ok ())).posts =
      [{ description := "I", force_creation_of_new_list := false,
         mod_url := "abc".toList, read_url := some "u" }] ∧
    (enroll "abc".toList "I"
        (fun _ => FetchResult.ok ⟨some "u", none⟩) 2 (Except.ok ())).outcome ≠
      EnrollOutcome.duplicateSkip :=
  missing_items_enrolls "abc".toList "I" ⟨some "u", none⟩
    (fun _ => FetchResult.ok ⟨some "u", none⟩) 2 (Except.ok ())
    rfl (by decide) (by decide) rfl

/-- C5: for every message body consisting of some text, then the first
occurrence of the configured prefix immediately followed by an identifier
and then a space plus trailing text, extraction returns exactly the
identifier as `modUrl` and the substring from the prefix up to the first
space as `fullUrl`.  The identifier is assumed free of whitespace and of
the fragment delimiter, as the claim's notion of "an identifier"
requires. -/
theorem extract_id_and_url (pre id post : List Char)
    (hfirst : subIndexOf (pre ++ (listmozStart ++ (id ++ ' ' :: post))) listmozStart
      = some pre.length)
    (hid : id ≠ [])
    (hchars : ∀ c ∈ id, jsIsWhite c = false ∧ (c == '#') = false) :
    extractLink (pre ++ (listmozStart ++ (id ++ ' ' :: post))) =
      some { fullUrl := listmozStart ++ id, modUrl := id } := by
  have hidnospace : ∀ c ∈ id, (c == ' ') = false := by
    intro c hc
    cases hb : c == ' ' with
    | false => rfl
    | true =>
      have hcw := (hchars c hc).1
      rw [eq_of_beq hb] at hcw
      exact absurd hcw (by decide)
  have hcand : candidateAt (pre ++ (listmozStart ++ (id ++ ' ' :: post))) pre.length
      = listmozStart ++ id := by
    rw [candidateAt_eq_takeWhile, List.drop_left, ← List.append_assoc,
      takeWhile_append_all _ _ _ (by
        intro c hc
        rcases List.mem_append.mp hc with h | h
        · simp [listmozStart_no_space c h]
        · simp [hidnospace c h]),
      show (' ' :: post).takeWhile (fun c => !(c == ' ')) = [] from by
        simp [List.takeWhile_cons],
      List.append_nil]
    exact jsTrim_eq_self (by
      intro c hc
      rcases List.mem_append.mp hc with h | h
      · exact listmozStart_no_white c h
      · exact (hchars c h).1)
  have hfrag : fragmentSeg (listmozStart ++ id) = some id := by
    have hbase : listmozStart = "https://listmoz.com/".toList ++ ['#'] := by decide
    rw [fragmentSeg, hbase, List.append_assoc]
    show (splitChar '#' ("https://listmoz.com/".toList ++ '#' :: id)).get? 1 = some id
    rw [splitChar_append_sep '#' _ id (by decide),
      splitChar_of_not_mem '#' id (fun x hx => (hchars x hx).2)]
    rfl
  have hne : (id == []) = false := by
    cases id with
    | nil => exact absurd rfl hid
    | cons a t => rfl
  unfold extractLink
  rw [hfirst]
  simp only [hcand, hfrag, hne, Bool.false_eq_true, if_false]

theorem extract_id_and_url_witness :
    extractLink "check this out https://listmoz.com/#abc123 thanks".toList =
      some { fullUrl := "https://listmoz.com/#abc123".toList,
             modUrl := "abc123".toList } := by
  have hb : "check this out https://listmoz.com/#abc123 thanks".toList =
      "check this out ".toList ++ (listmozStart ++ ("abc123".toList ++
        ' ' :: "thanks".toList)) := by decide
  rw [hb]
  exact extract_id_and_url "check this out ".toList "abc123".toList "thanks".toList
    (by decide) (by decide) (by decide)

/-- C6 counterexample: the claim says any whitespace character (not only a
space) terminates the candidate link.  In the source only the literal
space character does (`indexOf(' ', startIdx)`): with a tab between `a`
and `b`, the tab is a whitespace character, yet the extracted candidate
runs past it up to the space, so the identifier keeps the tab.  Under the
claim the candidate would stop at the tab and the identifier would be
`a`. -/
theorem tab_does_not_terminate_candidate :
    jsIsWhite '\t' = true ∧
    extractLink "https://listmoz.com/#a\tb c".toList =
      some { fullUrl := "https://listmoz.com/#a\tb".toList,
             modUrl := "a\tb".toList } := by
  exact ⟨by decide, by decide⟩

/-- C6 (amended): for every message body containing the prefix, the
candidate link spans from the first occurrence of the prefix to the next
space character (`' '`, not an arbitrary whitespace character) or
end-of-string, surrounding whitespace is trimmed, and the identifier is
the second segment obtained by splitting the candidate on `'#'`.
`extractSpec` is written from that description; the source extraction
agrees with it on every body. -/
theorem extract_refines_spec_alg (body : List Char) :
    extractLink body = extractSpec body := by
  unfold extractLink extractSpec
  simp only [candidateAt_eq_takeWhile]

/-- C7 counterexample: the claim says every failure arising during a
message's processing — including resolving the chat name — is caught
inside the per-message handler.  In the source `await msg.getChat()` sits
before the `try` block, so its rejection is not caught: on a group message
whose `getChat` fails, the run ends with the rejection escaping the
handler (`chatErrorUncaught`), not with a caught-and-logged outcome. -/
theorem chat_failure_escapes :
    handleMessage "x@g.us".toList "https://listmoz.com/#abc".toList
        (Except.error ()) "T" "I" (fun _ => FetchResult.err) 1 (Except.ok ()) =
      { lookupCalls := 0, waits := [], posts := [],
        outcome := .chatErrorUncaught } := by
  decide

/-- C7 (amended): every failure arising inside the handler's `try` block —
the lookup polling, the exhaustion throw, and the submission POST — is
caught by the per-message `catch` and converted to log output, and runs
for distinct messages are independent; but a failure while resolving the
chat name happens before the `try` block and escapes the handler.
Formally: a run's error escapes the handler exactly when the message
passes the group filter and `getChat` rejects. -/
theorem handler_catch_boundary (msgFrom body : List Char)
    (getChatResult : Except Unit String) (targetChat item : String)
    (oracle : Nat → FetchResult) (maxRetries : Nat)
    (postResult : Except Unit Unit) :
    (handleMessage msgFrom body getChatResult targetChat item oracle maxRetries
        postResult).outcome.escapesHandler = true ↔
      (isGroupFrom msgFrom = true ∧ getChatResult = Except.error ()) := by
  cases hg : isGroupFrom msgFrom with
  | false => simp [handleMessage, hg, Outcome.escapesHandler]
  | true =>
    cases getChatResult with
    | error e => cases e; simp [handleMessage, hg, Outcome.escapesHandler]
    | ok name =>
      by_cases hn : name = targetChat
      · subst hn
        cases hex : extractLink body with
        | none => simp [handleMessage, hg, hex, Outcome.escapesHandler]
        | some ex => simp [handleMessage, hg, hex, Outcome.escapesHandler]
      · simp [handleMessage, hg, hn, Outcome.escapesHandler]

/-- C8: for every message whose origin identifier does not contain the
group marker `@g.us`, the handler returns before doing anything: no lookup
call, no delay, no submission, and the result does not depend on the
chat-name lookup — the theorem holds for every `getChatResult`, including
a rejection, because `await msg.getChat()` is never reached. -/
theorem non_group_skipped (msgFrom body : List Char)
    (getChatResult : Except Unit String) (targetChat item : String)
    (oracle : Nat → FetchResult) (maxRetries : Nat)
    (postResult : Except Unit Unit) (h : isGroupFrom msgFrom = false) :
    handleMessage msgFrom body getChatResult targetChat item oracle maxRetries
        postResult =
      { lookupCalls := 0, waits := [], posts := [], outcome := .notGroup } := by
  simp [handleMessage, h]

theorem non_group_skipped_witness :
    handleMessage "12345@c.us".toList "https://listmoz.com/#abc".toList
        (Except.error ()) "T" "I" (fun _ => FetchResult.err) 2 (Except.ok ()) =
      { lookupCalls := 0, waits := [], posts := [], outcome := .notGroup } :=
  non_group_skipped "12345@c.us".toList "https://listmoz.com/#abc".toList
    (Except.error ()) "T" "I" (fun _ => FetchResult.err) 2 (Except.ok ())
    (by decide)

/-- C9: for every in-scope message (group origin, chat name equal to the
target) whose body contains the prefix but whose candidate link has no
non-empty fragment segment after `'#'`, extraction returns `none`
(`if (!modUrl) return`) and the handler performs no lookup call and no
submission call. -/
theorem no_fragment_skipped (msgFrom body : List Char)
    (targetChat item : String) (oracle : Nat → FetchResult) (maxRetries : Nat)
    (postResult : Except Unit Unit) (i : Nat)
    (hg : isGroupFrom msgFrom = true)
    (hidx : subIndexOf body listmozStart = some i)
    (hfrag : ∀ m, fragmentSeg (candidateAt body i) = some m → m = []) :
    extractLink body = none ∧
    handleMessage msgFrom body (Except.ok targetChat) targetChat item oracle
        maxRetries postResult =
      { lookupCalls := 0, waits := [], posts := [], outcome := .noMatch } := by
  have hex : extractLink body = none := by
    unfold extractLink
    rw [hidx]
    cases hfs : fragmentSeg (candidateAt body i) with
    | none => simp [hfs]
    | some m =>
      have hm := hfrag m hfs
      subst hm
      simp [hfs]
  exact ⟨hex, by simp [handleMessage, hg, hex]⟩

theorem no_fragment_skipped_witness :
    extractLink "go https://listmoz.com/# now".toList = none ∧
    handleMessage "1@g.us".toList "go https://listmoz.com/# now".toList
        (Except.ok "T") "T" "I" (fun _ => FetchResult.err) 5 (Except.ok ()) =
      { lookupCalls := 0, waits := [], posts := [], outcome := .noMatch } :=
  no_fragment_skipped "1@g.us".toList "go https://listmoz.com/# now".toList
    "T" "I" (fun _ => FetchResult.err) 5 (Except.ok ()) 3
    (by decide) (by decide)
    (fun m hm => by
      have hc : fragmentSeg (candidateAt "go https://listmoz.com/# now".toList 3)
          = some [] := by decide
      rw [hc] at hm
      exact (Option.some_inj.mp hm).symm)
